import Mathlib

/-!
Verification of the tactical-voting analysis library (BTVA / ATVA1-3,
voting_schemes.py, happiness_measure.py, risk_measure.py,
strategy_generators.py) against its natural-language specification.

Shallow embedding conventions:
* Candidate identifiers are natural numbers (the Python code uses one-character
  strings; only their identity and their total order matter anywhere).
* A preference matrix `voter_preference` of numpy shape (m, n) is embedded as a
  `List (List Nat)` of its n columns: entry `i` of the list is the column
  `voter_preference[:, i]`, voter i's ranking from best to worst (length m).
* Python `float` happiness values are embedded as rationals `ℚ`; the claims
  under study only compare happiness values, never rely on float rounding.
* A Python `dict[str, int]` of candidate scores is embedded as an association
  list `List (Nat × Int)` in dict insertion order.
* Python's stable `sorted(items, key=..., reverse=True)` is embedded as
  `List.insertionSort` with the non-strict "greater or equal score" relation,
  which is stable in the same sense (equal keys keep their original order).
-/

namespace AMS

/-- A single voter's ballot: ranking of candidate identifiers, best to worst.
Embeds one column `voter_preference[:, i]` of the numpy matrix. -/
abbrev Pref := List Nat

/-- A preference matrix, stored as the list of its voter columns. -/
abbrev PrefMatrix := List Pref

/-- `np.unique`: the sorted list of the distinct elements of `l`. -/
def uniqueSorted (l : List Nat) : List Nat :=
  List.insertionSort (· ≤ ·) l.dedup

/-- The candidate set of a matrix, as computed by
`np.unique(voter_preference)` in every voting scheme: sorted distinct
entries of the whole matrix. -/
def candidatesOf (prefs : PrefMatrix) : List Nat :=
  uniqueSorted prefs.flatten

/-- `m`, the number of rank positions, read off the matrix shape. -/
def numRanks (prefs : PrefMatrix) : Nat :=
  (prefs.headD []).length

/-- plurality_voting (voting_schemes.py lines 62-76): each voter's top
candidate gets one point.  Result is the dict `candidate -> score` in its
insertion order, i.e. ascending candidate order from `np.unique`. -/
def plurality_voting (prefs : PrefMatrix) : List (Nat × Int) :=
  (candidatesOf prefs).map fun c =>
    (c, (prefs.countP fun col => col.head? = some c : Int))

/-- borda_count_voting (voting_schemes.py lines 24-41): rank r contributes
`m - 1 - r` points to the candidate at rank r of each ballot. -/
def borda_count_voting (prefs : PrefMatrix) : List (Nat × Int) :=
  let m := numRanks prefs
  (candidatesOf prefs).map fun c =>
    (c, (prefs.map fun col =>
          ((List.range m).map fun (r : Nat) =>
            if col.get? r = some c then (m : Int) - 1 - (r : Int) else 0).sum).sum)

/-- anti_plurality_voting (voting_schemes.py lines 4-22): every rank except
the last one (`for preference in range(m)` with a break at `m-1`) contributes
one point. -/
def anti_plurality_voting (prefs : PrefMatrix) : List (Nat × Int) :=
  let m := numRanks prefs
  (candidatesOf prefs).map fun c =>
    (c, (prefs.map fun col =>
          ((List.range (m - 1)).map fun r =>
            if col.get? r = some c then (1 : Int) else 0).sum).sum)

/-- two_person_voting (voting_schemes.py lines 43-60): the top two ranks
(top one when m = 1) contribute one point each. -/
def two_person_voting (prefs : PrefMatrix) : List (Nat × Int) :=
  let m := numRanks prefs
  (candidatesOf prefs).map fun c =>
    (c, (prefs.map fun col =>
          ((List.range (min 2 m)).map fun r =>
            if col.get? r = some c then (1 : Int) else 0).sum).sum)

/-- The comparison used by
`sorted(outcome.items(), key=lambda item: item[1], reverse=True)`:
descending by score, stable on equal scores. -/
def outRel (a b : Nat × Int) : Prop := b.2 ≤ a.2

instance : DecidableRel outRel := fun a b => inferInstanceAs (Decidable (b.2 ≤ a.2))

instance : IsTotal (Nat × Int) outRel := ⟨fun a b => (le_total b.2 a.2)⟩

instance : IsTrans (Nat × Int) outRel :=
  ⟨fun _ _ _ hab hbc => le_trans hbc hab⟩

/-- Python's stable descending sort of the outcome dict items, as performed
in every `analyze` before the outcome is consumed as a ranking. -/
def sortOutcomeDesc (items : List (Nat × Int)) : List (Nat × Int) :=
  List.insertionSort outRel items

/-- The candidate order handed to the happiness measures:
`list(outcome.keys())` after the sort. -/
def sortedOutcomeKeys (items : List (Nat × Int)) : List Nat :=
  (sortOutcomeDesc items).map Prod.fst

/-- The strict total order that the sorted outcome is claimed to realize:
descending score, ties broken by ascending candidate identifier. -/
def outStrict (a b : Nat × Int) : Prop :=
  b.2 < a.2 ∨ (a.2 = b.2 ∧ a.1 < b.1)

lemma sorted_uniqueSorted (l : List Nat) : (uniqueSorted l).Sorted (· ≤ ·) :=
  List.sorted_insertionSort _ _

lemma nodup_uniqueSorted (l : List Nat) : (uniqueSorted l).Nodup :=
  ((List.perm_insertionSort _ _).nodup_iff).mpr l.nodup_dedup

lemma pairwise_lt_uniqueSorted (l : List Nat) :
    (uniqueSorted l).Pairwise (· < ·) :=
  (sorted_uniqueSorted l).lt_of_le (nodup_uniqueSorted l)

lemma pairwise_orderedInsert_outStrict (x : Nat × Int) :
    ∀ l : List (Nat × Int), l.Pairwise outStrict → l.Sorted outRel →
      (∀ y ∈ l, x.1 < y.1) →
      (List.orderedInsert outRel x l).Pairwise outStrict := by
  intro l
  induction l with
  | nil => intro _ _ _; simp [List.orderedInsert]
  | cons y ys ih =>
    intro hpw hsort hids
    rw [List.orderedInsert]
    by_cases hxy : outRel x y
    · rw [if_pos hxy]
      refine List.Pairwise.cons ?_ hpw
      intro z hz
      have hzy : z = y ∨ z ∈ ys := by simpa using hz
      have hz2 : z.2 ≤ x.2 := by
        rcases hzy with rfl | hz'
        · exact hxy
        · exact le_trans (List.rel_of_sorted_cons hsort z hz') hxy
      rcases lt_or_eq_of_le hz2 with h | h
      · exact Or.inl h
      · exact Or.inr ⟨h.symm, hids z hz⟩
    · rw [if_neg hxy]
      have hyx : x.2 < y.2 := by
        simpa [outRel] using hxy
      refine List.Pairwise.cons ?_ ?_
      · intro z hz
        rcases (List.mem_orderedInsert _).mp hz with rfl | hz'
        · exact Or.inl hyx
        · exact (List.pairwise_cons.mp hpw).1 z hz'
      · exact ih (List.pairwise_cons.mp hpw).2 (List.sorted_cons.mp hsort).2
          (fun z hz => hids z (List.mem_cons_of_mem y hz))

lemma pairwise_sortOutcomeDesc (items : List (Nat × Int))
    (h : items.Pairwise fun a b => a.1 < b.1) :
    (sortOutcomeDesc items).Pairwise outStrict := by
  induction items with
  | nil => simp [sortOutcomeDesc, List.insertionSort]
  | cons x xs ih =>
    have hx : ∀ y ∈ xs, x.1 < y.1 := (List.pairwise_cons.mp h).1
    have hxs := (List.pairwise_cons.mp h).2
    show (List.orderedInsert outRel x (List.insertionSort outRel xs)).Pairwise outStrict
    refine pairwise_orderedInsert_outStrict x _ (ih hxs)
      (List.sorted_insertionSort _ _) ?_
    intro y hy
    exact hx y ((List.perm_insertionSort outRel xs).mem_iff.mp hy)

lemma pairwise_fst_of_map (cands : List Nat) (f : Nat → Int)
    (h : cands.Pairwise (· < ·)) :
    (cands.map fun c => (c, f c)).Pairwise fun a b : Nat × Int => a.1 < b.1 := by
  rw [List.pairwise_map]
  exact h

/-- C6: after the stable descending sort, the outcome handed to the
happiness measure is a total order over all candidates (its keys are a
permutation of the candidate set), descending by score, with equal-score
candidates in ascending identifier order.  Holds for each of the four
provided voting schemes. -/
theorem outcome_sort_total_order (prefs : PrefMatrix)
    (scheme : PrefMatrix → List (Nat × Int))
    (hs : scheme ∈ [plurality_voting, borda_count_voting,
      anti_plurality_voting, two_person_voting]) :
    (sortedOutcomeKeys (scheme prefs)).Perm (candidatesOf prefs) ∧
      (sortOutcomeDesc (scheme prefs)).Pairwise outStrict := by
  have hform : ∃ f : Nat → Int,
      scheme prefs = (candidatesOf prefs).map fun c => (c, f c) := by
    simp only [List.mem_cons, List.mem_singleton] at hs
    rcases hs with rfl | rfl | rfl | rfl | h
    · exact ⟨_, rfl⟩
    · exact ⟨_, rfl⟩
    · exact ⟨_, rfl⟩
    · exact ⟨_, rfl⟩
    · simp at h
  rcases hform with ⟨f, hf⟩
  constructor
  · show ((sortOutcomeDesc (scheme prefs)).map Prod.fst).Perm (candidatesOf prefs)
    rw [hf]
    have h1 : (sortOutcomeDesc ((candidatesOf prefs).map fun c => (c, f c))).Perm
        ((candidatesOf prefs).map fun c => (c, f c)) := List.perm_insertionSort _ _
    have h2 := h1.map Prod.fst
    rw [List.map_map] at h2
    exact h2.trans (by simp [Function.comp_def])
  · rw [hf]
    exact pairwise_sortOutcomeDesc _
      (pairwise_fst_of_map _ _ (pairwise_lt_uniqueSorted _))

/-- Witness for outcome_sort_total_order at a concrete input: the m=3, n=4
example from the spec (candidates A,B,C encoded 0,1,2). -/
theorem outcome_sort_total_order_witness :
    (sortedOutcomeKeys
        (plurality_voting [[1, 2, 0], [0, 2, 1], [2, 1, 0], [2, 1, 0]])).Perm
      (candidatesOf [[1, 2, 0], [0, 2, 1], [2, 1, 0], [2, 1, 0]]) ∧
      (sortOutcomeDesc
          (plurality_voting [[1, 2, 0], [0, 2, 1], [2, 1, 0], [2, 1, 0]])).Pairwise
        outStrict :=
  outcome_sort_total_order [[1, 2, 0], [0, 2, 1], [2, 1, 0], [2, 1, 0]]
    plurality_voting (by simp)

/-! ## Happiness measures (happiness_measure.py)

A happiness measure is embedded as a function into an arbitrary linearly
ordered type `H`: the Python code only ever compares happiness values with
`<` (and, in ATVA1, subtracts a baseline before comparing against 0).
`H = ℚ` models the float-valued measures; get_happiness with its default
integer weight vectors is integer-valued in Python and is embedded with
`H = ℤ`, which the concrete witnesses below use. -/

/-- get_happiness (happiness_measure.py lines 147-184): weighted sum of
distance-discounted preference weights, with Python's default integer
weights.  Python weight indexing `preference_weights[idx]` and
`distance_weights[distance]` is modeled with `getD _ 0`; at the call sites
used below both indices are in range.  `voting_outcome.index` is modeled by
`indexOf`; the outcome contains every ballot entry at those call sites. -/
def get_happiness (voter_preference : Pref) (voting_outcome : List Nat)
    (preference_weights distance_weights : List Int) : Int :=
  ((List.range voter_preference.length).map fun (idx : Nat) =>
    let distance := ((idx : Int) -
      (voting_outcome.indexOf (voter_preference.getD idx 0) : Int)).natAbs
    preference_weights.getD idx 0 * distance_weights.getD distance 0).sum

/-- The default weight vector of get_happiness: `[1] + [0] * (len - 1)`. -/
def defaultTopWeights (m : Nat) : List Int :=
  1 :: List.replicate (m - 1) 0

/-- get_happiness with both weight vectors defaulted (the Top-1 Binary
happiness measurement of its docstring). -/
def get_happiness_default (p : Pref) (o : List Nat) : Int :=
  get_happiness p o (defaultTopWeights p.length) (defaultTopWeights p.length)

/-! ## Strategy generator (strategy_generators.py) -/

/-- defaultStrategyGenerator (strategy_generators.py lines 10-14):
`list(permutations(input))` — every permutation, the original included.
`maxN` is accepted and ignored exactly as in the source.  The enumeration
order of `List.permutations'` differs from itertools; all claims below are
order-independent (membership-based). -/
def defaultStrategyGenerator (input : Pref) (maxN : Nat) : List Pref :=
  input.permutations'

/-! ## BTVA.analyze strategic options (BTVA.py lines 74-103) and
ATVA3.analyze strategic options (ATVA3.py lines 123-155)

In both loops `mod_pref` only ever differs from the input matrix in column
`i`, so writing `option` into column `i` of the copy is `prefs.set i option`.
A Python `set` of (ranking, happiness) pairs is modeled as the list of the
inserted pairs: membership coincides (the claims are membership-based). -/

/-- The baseline happiness of voter `i`: their happiness measured against
the sincere sorted outcome (`individual_happiness[i]` in every analyze). -/
def baselineHappiness {H : Type} (prefs : PrefMatrix)
    (scheme : PrefMatrix → List (Nat × Int)) (measure : Pref → List Nat → H)
    (i : Nat) : H :=
  measure (prefs.getD i []) (sortedOutcomeKeys (scheme prefs))

/-- The happiness voter `i` would obtain by submitting `option`
(recomputed outcome of the column-modified matrix, measured against the
voter's sincere column). -/
def modHappiness {H : Type} (prefs : PrefMatrix)
    (scheme : PrefMatrix → List (Nat × Int)) (measure : Pref → List Nat → H)
    (i : Nat) (option : Pref) : H :=
  measure (prefs.getD i []) (sortedOutcomeKeys (scheme (prefs.set i option)))

/-- BTVA.analyze, strategic-options loop for voter `i` (BTVA.py lines
74-103).  The strict-improvement guard present in ATVA3 is commented out
here ("Bloom change"): every sampled pair is added unconditionally. -/
def btvaStrategicOptions {H : Type} (prefs : PrefMatrix)
    (scheme : PrefMatrix → List (Nat × Int)) (measure : Pref → List Nat → H)
    (allOptions : List Pref) (i : Nat) : List (Pref × H) :=
  allOptions.map fun option => (option, modHappiness prefs scheme measure i option)

/-- ATVA3.analyze, strategic-options loop for voter `i` (ATVA3.py lines
123-155): all permutations of the voter's own column except the original,
kept only when the recomputed happiness strictly exceeds the baseline. -/
def atva3StrategicOptions {H : Type} [LinearOrder H] (prefs : PrefMatrix)
    (scheme : PrefMatrix → List (Nat × Int)) (measure : Pref → List Nat → H)
    (i : Nat) : List (Pref × H) :=
  (((prefs.getD i []).permutations').filter fun o => o ≠ prefs.getD i []).filterMap
    fun option =>
      let h := modHappiness prefs scheme measure i option
      if baselineHappiness prefs scheme measure i < h then some (option, h)
      else none

/-- C1 counterexample: BTVA.analyze surfaces a pair whose happiness does
not strictly exceed the baseline.  Matrix with one voter ranking [0, 1]
under plurality voting and the default get_happiness measure: the generator
includes the sincere ranking itself, which is surfaced with happiness
exactly equal to the baseline (both are 1). -/
theorem btva_surfaces_nonimproving_pair :
    ([0, 1], (1 : Int)) ∈ btvaStrategicOptions [[0, 1]] plurality_voting
        get_happiness_default (defaultStrategyGenerator [0, 1] 10000) 0 ∧
      ¬ baselineHappiness [[0, 1]] plurality_voting get_happiness_default 0 < 1 := by
  constructor
  · decide
  · decide

/-- C1 amended: ATVA3.analyze retains a pair only when its happiness
strictly exceeds the voter's baseline, while BTVA.analyze performs no such
filtering — it surfaces every sampled (ranking, happiness) pair. -/
theorem strict_improvement_atva3_btva_unfiltered :
    (∀ (H : Type) (inst : LinearOrder H) (prefs : PrefMatrix)
        (scheme : PrefMatrix → List (Nat × Int))
        (measure : Pref → List Nat → H) (i : Nat) (p : Pref × H),
        p ∈ atva3StrategicOptions prefs scheme measure i →
          baselineHappiness prefs scheme measure i < p.2) ∧
      (∀ (H : Type) (prefs : PrefMatrix) (scheme : PrefMatrix → List (Nat × Int))
        (measure : Pref → List Nat → H) (allOptions : List Pref) (i : Nat)
        (o : Pref), o ∈ allOptions →
          (o, modHappiness prefs scheme measure i o) ∈
            btvaStrategicOptions prefs scheme measure allOptions i) := by
  constructor
  · intro H inst prefs scheme measure i p hp
    rcases List.mem_filterMap.mp hp with ⟨o, _, ho⟩
    by_cases h : baselineHappiness prefs scheme measure i <
        modHappiness prefs scheme measure i o
    · rw [if_pos h] at ho
      cases ho
      exact h
    · rw [if_neg h] at ho
      cases ho
  · intro H prefs scheme measure allOptions i o ho
    exact List.mem_map_of_mem _ ho

/-- Witness for strict_improvement_atva3_btva_unfiltered: voter 0 of the
matrix with columns [2,0,1], [0,1,2], [2,0,1] under borda count and the
default get_happiness measure has the strictly improving option [2,1,0] in
its ATVA3 set, and BTVA surfaces the sampled option [1,0] for the
one-voter matrix [[0,1]]. -/
theorem strict_improvement_witness :
    baselineHappiness [[2, 0, 1], [0, 1, 2], [2, 0, 1]] borda_count_voting
        get_happiness_default 0 < (1 : Int) ∧
      ([1, 0], modHappiness [[0, 1]] plurality_voting get_happiness_default 0 [1, 0]) ∈
        btvaStrategicOptions [[0, 1]] plurality_voting get_happiness_default
          (defaultStrategyGenerator [0, 1] 10000) 0 := by
  constructor
  · exact strict_improvement_atva3_btva_unfiltered.1 Int inferInstance
      [[2, 0, 1], [0, 1, 2], [2, 0, 1]] borda_count_voting
      get_happiness_default 0 ([2, 1, 0], (1 : Int)) (by decide)
  · exact strict_improvement_atva3_btva_unfiltered.2 Int
      [[0, 1]] plurality_voting get_happiness_default
      (defaultStrategyGenerator [0, 1] 10000) 0 [1, 0] (by decide)

/-! ## ATVA2._single_step_analyse (ATVA2.py lines 113-243) -/

/-- The skip test of ATVA2.py line 163, `if excluded_voter and i ==
excluded_voter:`.  Python truthiness: the conjunction is falsy whenever
`excluded_voter` is `None` or the integer 0. -/
def pythonSkipExcluded (excl : Option Nat) (i : Nat) : Bool :=
  match excl with
  | none => false
  | some e => decide (e ≠ 0) && decide (i = e)

/-- The counter-move classification of ATVA2.py lines 194-211, applied to
one candidate move of voter `j` when an excluded first mover is present:
`rawH` is j's happiness after the move, `baseJ` is j's happiness before it
(`individual_happiness[j]` of this nested call), `epref`/`ebase` are the
first mover's sincere ballot and pre-manipulation baseline, and `keys` is
the recomputed outcome order.  Returns the happiness value stored with the
move and whether `is_countered` is set by it. -/
def counterAdjust {H : Type} [LinearOrder H] (measure : Pref → List Nat → H)
    (epref : Pref) (ebase : H) (keys : List Nat) (rawH baseJ : H) : H × Bool :=
  if baseJ < rawH then
    if ebase < measure epref keys then (baseJ, false) else (rawH, true)
  else (rawH, false)

/-- The strategic-options loop of _single_step_analyse (ATVA2.py lines
159-214): per voter, either the skip of line 163 or one processed pair per
generated option; also returns the aggregated `is_countered` flag.
`excl` carries `(excluded_voter, excluded_voter_preference,
excluded_voter_original_hapiness)`; `allOptions` is the `self.all_options`
cache, computed by the first call from column 0 of the original matrix. -/
def singleStepStrategicOptions {H : Type} [LinearOrder H] (prefs : PrefMatrix)
    (scheme : PrefMatrix → List (Nat × Int)) (measure : Pref → List Nat → H)
    (allOptions : List Pref) (excl : Option (Nat × Pref × H)) :
    List (List (Pref × H)) × Bool :=
  let results := (List.range prefs.length).map fun i =>
    if pythonSkipExcluded (excl.map (·.1)) i then ([], false)
    else
      let processed := allOptions.map fun o =>
        let keys := sortedOutcomeKeys (scheme (prefs.set i o))
        let rawH := measure (prefs.getD i []) keys
        let baseJ := baselineHappiness prefs scheme measure i
        match excl with
        | none => ((o, rawH), false)
        | some (_, epref, ebase) =>
          let r := counterAdjust measure epref ebase keys rawH baseJ
          ((o, r.1), r.2)
      (processed.map (·.1), processed.any (·.2))
  (results.map (·.1), results.any (·.2))

/-- C3: a move of voter j is classified as a counter (flag set, raw
happiness retained) exactly when it strictly improves j and leaves the
first mover at or below their pre-manipulation baseline; a move that
strictly improves j while the first mover stays strictly above baseline is
not a counter and has j's stored happiness reset to j's baseline. -/
theorem counter_move_classification {H : Type} [inst : LinearOrder H]
    (measure : Pref → List Nat → H) (epref : Pref) (ebase : H)
    (keys : List Nat) (rawH baseJ : H) :
    ((counterAdjust measure epref ebase keys rawH baseJ).2 = true ↔
        baseJ < rawH ∧ measure epref keys ≤ ebase) ∧
      (counterAdjust measure epref ebase keys rawH baseJ).1 =
        if baseJ < rawH ∧ ebase < measure epref keys then baseJ else rawH := by
  unfold counterAdjust
  by_cases h1 : baseJ < rawH
  · by_cases h2 : ebase < measure epref keys
    · simp [if_pos h1, if_pos h2, h1, h2, not_le.mpr h2]
    · simp [if_pos h1, if_neg h2, h1, h2, not_lt.mp h2]
  · simp [if_neg h1, h1]

/-- C4: in _single_step_analyse the excluded first mover's own column is
re-searched when the first mover is voter 0, because line 163 tests the
Python truthiness of `excluded_voter` (0 is falsy) instead of
`excluded_voter is not None`.  Concretely, under borda count with the
default get_happiness measure, voter 0 of [[2,0,1],[0,1,2],[2,0,1]] has the
beneficial first move [2,1,0]; in the nested call on the modified matrix
with excluded_voter = 0, voter 0's strategic-options set is non-empty,
whereas with a first mover 1 the excluded column is correctly empty. -/
theorem excluded_first_mover_zero_researched :
    baselineHappiness [[2, 0, 1], [0, 1, 2], [2, 0, 1]] borda_count_voting
        get_happiness_default 0 <
      modHappiness [[2, 0, 1], [0, 1, 2], [2, 0, 1]] borda_count_voting
        get_happiness_default 0 [2, 1, 0] ∧
    ((singleStepStrategicOptions [[2, 1, 0], [0, 1, 2], [2, 0, 1]]
          borda_count_voting get_happiness_default
          (defaultStrategyGenerator [2, 0, 1] 10000)
          (some (0, [2, 0, 1], 0))).1.getD 0 []) ≠ [] ∧
    ((singleStepStrategicOptions [[2, 0, 1], [0, 2, 1], [2, 0, 1]]
          borda_count_voting get_happiness_default
          (defaultStrategyGenerator [2, 0, 1] 10000)
          (some (1, [0, 1, 2], 1))).1.getD 1 []) = [] := by
  refine ⟨by decide, by decide, by decide⟩

/-! ## ATVA1.analyze coalition search (ATVA1.py lines 25-123) -/

/-- One accepted record of `collusion_options`: the coalition candidate, the
modified column of each member, and each member's happiness delta. -/
abbrev CollusionEntry (H : Type) := List Nat × List Pref × List H

/-- ATVA1.py lines 49-50: per voter, all permutations of their own column
with the original removed (`list.remove` deletes the first occurrence; the
permutations are distinct, so exactly the original goes). -/
def strategicOptionLists (prefs : PrefMatrix) : List (List Pref) :=
  (List.range prefs.length).map fun i =>
    ((prefs.getD i []).permutations').erase (prefs.getD i [])

/-- Modelled from the spec: `combinationStrategyGenerator` is imported by
ATVA1.py from strategy_generators.py but is missing from the sources (only
its caller is present).  Spec section 3 (CoalitionCandidate): "a fixed-size
tuple of voter indices ... generated once per analysis by combination (not
permutation — order within the coalition is irrelevant) over voter indices;
mirrored tuples ... are de-duplicated."  Modeled as the ascending
fixed-size-k combinations of the voter indices. -/
def combinationStrategyGenerator (n k : Nat) : List (List Nat) :=
  (List.range n).sublistsLen k

/-- The carry pass of ATVA1.py lines 94-102 (`for i in range(maxCollusionSize)`):
digit `i` with `rem = k - i` digits left.  The bounds check of line 95 reads
voter i's option list (`strategic_options[i]`), the column assignment of
lines 101-102 reads member `collusion_candidate[i]`'s list, exactly as in
the source; after a carry the reset index written is 0. -/
def odoFor (optionsList : List (List Pref)) (cand : List Nat) (k : Nat) :
    Nat → Nat → List Nat → PrefMatrix → List Nat × PrefMatrix
  | 0, _, indices, modified => (indices, modified)
  | rem + 1, i, indices, modified =>
    if (optionsList.getD i []).length ≤ indices.getD i 0 then
      if i + 1 < k then
        odoFor optionsList cand k rem (i + 1)
          ((indices.set i 0).set (i + 1) (indices.getD (i + 1) 0 + 1))
          (modified.set (cand.getD i 0)
            ((optionsList.getD (cand.getD i 0) []).getD 0 []))
      else (indices, modified)
    else
      odoFor optionsList cand k rem (i + 1) indices
        (modified.set (cand.getD i 0)
          ((optionsList.getD (cand.getD i 0) []).getD (indices.getD i 0) []))

/-- ATVA1.py lines 76-82: each coalition member's change in happiness under
the current modified matrix, relative to their individual baseline. -/
def atva1Deltas {H : Type} [LinearOrderedAddCommGroup H] (prefs : PrefMatrix)
    (scheme : PrefMatrix → List (Nat × Int)) (measure : Pref → List Nat → H)
    (cand : List Nat) (modified : PrefMatrix) : List H :=
  cand.map fun i =>
    measure (prefs.getD i []) (sortedOutcomeKeys (scheme modified)) -
      baselineHappiness prefs scheme measure i

/-- ATVA1.py line 83: the joint assignment is accepted only when every
member's delta is strictly positive. -/
def atva1Accept {H : Type} [LinearOrderedAddCommGroup H] (prefs : PrefMatrix)
    (scheme : PrefMatrix → List (Nat × Int)) (measure : Pref → List Nat → H)
    (cand : List Nat) (modified : PrefMatrix) : Bool :=
  (atva1Deltas prefs scheme measure cand modified).all fun d => decide (0 < d)

/-- ATVA1.py lines 84-88: the record appended to collusion_options. -/
def atva1Entry {H : Type} [LinearOrderedAddCommGroup H] (prefs : PrefMatrix)
    (scheme : PrefMatrix → List (Nat × Int)) (measure : Pref → List Nat → H)
    (cand : List Nat) (modified : PrefMatrix) : CollusionEntry H :=
  (cand, cand.map fun i => modified.getD i [],
    atva1Deltas prefs scheme measure cand modified)

/-- The `while True` joint-enumeration loop of ATVA1.py lines 69-104 for one
coalition candidate: test the current joint assignment (append an entry when
every member's delta is strictly positive, stopping there unless
exhaustiveSearch), then advance the odometer and stop when the last digit
has overflowed voter n-1's list.  `fuel` bounds the iteration count; the
Python loop performs at most one iteration per odometer value, so the
caller's fuel below is never exhausted. -/
def atva1Loop {H : Type} [LinearOrderedAddCommGroup H] (prefs : PrefMatrix)
    (scheme : PrefMatrix → List (Nat × Int)) (measure : Pref → List Nat → H)
    (optionsList : List (List Pref)) (cand : List Nat) (k : Nat)
    (exhaustive : Bool) :
    Nat → List Nat → PrefMatrix → List (CollusionEntry H)
  | 0, _, _ => []
  | fuel + 1, indices, modified =>
    let entryPart : List (CollusionEntry H) :=
      if atva1Accept prefs scheme measure cand modified then
        [atva1Entry prefs scheme measure cand modified]
      else []
    if atva1Accept prefs scheme measure cand modified && !exhaustive then
      entryPart
    else
      let next := odoFor optionsList cand k k 0
        (indices.set 0 (indices.getD 0 0 + 1)) modified
      if (optionsList.getD (optionsList.length - 1) []).length ≤
          next.1.getD (next.1.length - 1) 0 then
        entryPart
      else
        entryPart ++ atva1Loop prefs scheme measure optionsList cand k
          exhaustive fuel next.1 next.2

/-- ATVA1.analyze collusion_options (ATVA1.py lines 52-104): run the joint
enumeration over every coalition candidate, starting each from every
member's first alternative. -/
def atva1CollusionOptions {H : Type} [LinearOrderedAddCommGroup H]
    (prefs : PrefMatrix) (scheme : PrefMatrix → List (Nat × Int))
    (measure : Pref → List Nat → H) (k : Nat) (exhaustive : Bool) :
    List (CollusionEntry H) :=
  let optionsList := strategicOptionLists prefs
  (combinationStrategyGenerator prefs.length k).flatMap fun cand =>
    atva1Loop prefs scheme measure optionsList cand k exhaustive
      (((optionsList.getD 0 []).length + 1) ^ k + 1) (List.replicate k 0)
      (cand.foldl (fun M i => M.set i ((optionsList.getD i []).getD 0 [])) prefs)

lemma getD_set_ne {α : Type} (l : List α) (i j : Nat) (a : α) (d : α)
    (h : i ≠ j) : (l.set i a).getD j d = l.getD j d := by
  rcases lt_or_ge j l.length with hj | hj
  · rw [List.getD_eq_getElem _ _ (by simpa using hj),
      List.getD_eq_getElem _ _ hj]
    exact List.getElem_set_ne h _
  · rw [List.getD_eq_default _ _ (by simpa using hj),
      List.getD_eq_default _ _ hj]

/-- The matrix `M` agrees with `prefs` on every column outside `cand`. -/
def OffCoalition (prefs M : PrefMatrix) (cand : List Nat) : Prop :=
  ∀ j, j ∉ cand → M.getD j [] = prefs.getD j []

lemma offCoalition_set (prefs M : PrefMatrix) (cand : List Nat) (c : Nat)
    (col : Pref) (hc : c ∈ cand) (h : OffCoalition prefs M cand) :
    OffCoalition prefs (M.set c col) cand := by
  intro j hj
  rw [getD_set_ne _ _ _ _ _ (fun (hcj : c = j) => hj (hcj ▸ hc))]
  exact h j hj

lemma offCoalition_odoFor (optionsList : List (List Pref)) (cand : List Nat)
    (k : Nat) (prefs : PrefMatrix) :
    ∀ (rem i : Nat) (indices : List Nat) (modified : PrefMatrix),
      i + rem ≤ cand.length → OffCoalition prefs modified cand →
      OffCoalition prefs (odoFor optionsList cand k rem i indices modified).2 cand := by
  intro rem
  induction rem with
  | zero => intro i indices modified _ h; exact h
  | succ rem ih =>
    intro i indices modified hik h
    have hmem : cand.getD i 0 ∈ cand := by
      rw [List.getD_eq_getElem _ _ (by omega)]
      exact List.getElem_mem _
    rw [odoFor]
    by_cases h1 : (optionsList.getD i []).length ≤ indices.getD i 0
    · rw [if_pos h1]
      by_cases h2 : i + 1 < k
      · rw [if_pos h2]
        exact ih (i + 1) _ _ (by omega) (offCoalition_set _ _ _ _ _ hmem h)
      · rw [if_neg h2]
        exact h
    · rw [if_neg h1]
      exact ih (i + 1) _ _ (by omega) (offCoalition_set _ _ _ _ _ hmem h)

lemma offCoalition_init (prefs : PrefMatrix) (optionsList : List (List Pref))
    (cand : List Nat) :
    ∀ (start : PrefMatrix), OffCoalition prefs start cand →
      OffCoalition prefs
        (cand.foldl (fun M i => M.set i ((optionsList.getD i []).getD 0 [])) start)
        cand := by
  suffices hgen : ∀ (sub : List Nat) (start : PrefMatrix), (∀ c ∈ sub, c ∈ cand) →
      OffCoalition prefs start cand →
      OffCoalition prefs
        (sub.foldl (fun M i => M.set i ((optionsList.getD i []).getD 0 [])) start)
        cand by
    intro start h
    exact hgen cand start (fun c hc => hc) h
  intro sub
  induction sub with
  | nil => intro start _ h; exact h
  | cons a rest ih =>
    intro start hsub h
    exact ih _ (fun c hc => hsub c (List.mem_cons_of_mem a hc))
      (offCoalition_set _ _ _ _ _ (hsub a (List.mem_cons_self a rest)) h)

/-- What C2 asserts of every accepted record: there is a matrix `M`, equal
to the input outside the coalition and carrying the recorded member
columns, under whose recomputed outcome every member strictly beats their
individual baseline. -/
def AllImprove {H : Type} [LinearOrderedAddCommGroup H] (prefs : PrefMatrix)
    (scheme : PrefMatrix → List (Nat × Int)) (measure : Pref → List Nat → H)
    (entry : CollusionEntry H) : Prop :=
  ∃ M : PrefMatrix,
    OffCoalition prefs M entry.1 ∧
    entry.2.1 = entry.1.map (fun i => M.getD i []) ∧
    ∀ i ∈ entry.1, baselineHappiness prefs scheme measure i <
      measure (prefs.getD i []) (sortedOutcomeKeys (scheme M))

lemma allImprove_of_accept {H : Type} [LinearOrderedAddCommGroup H]
    (prefs : PrefMatrix) (scheme : PrefMatrix → List (Nat × Int))
    (measure : Pref → List Nat → H) (cand : List Nat) (modified : PrefMatrix)
    (hoff : OffCoalition prefs modified cand)
    (hacc : atva1Accept prefs scheme measure cand modified = true) :
    AllImprove prefs scheme measure
      (atva1Entry prefs scheme measure cand modified) := by
  refine ⟨modified, hoff, rfl, ?_⟩
  intro i hi
  have hall := List.all_eq_true.mp hacc
  have hd := hall
    (measure (prefs.getD i []) (sortedOutcomeKeys (scheme modified)) -
      baselineHappiness prefs scheme measure i)
    (List.mem_map_of_mem _ hi)
  have hpos : (0 : H) <
      measure (prefs.getD i []) (sortedOutcomeKeys (scheme modified)) -
        baselineHappiness prefs scheme measure i := of_decide_eq_true hd
  exact sub_pos.mp hpos

lemma entryPart_allImprove {H : Type} [LinearOrderedAddCommGroup H]
    (prefs : PrefMatrix) (scheme : PrefMatrix → List (Nat × Int))
    (measure : Pref → List Nat → H) (cand : List Nat) (modified : PrefMatrix)
    (hoff : OffCoalition prefs modified cand) (entry : CollusionEntry H)
    (hmem : entry ∈ (if atva1Accept prefs scheme measure cand modified then
        [atva1Entry prefs scheme measure cand modified]
      else ([] : List (CollusionEntry H)))) :
    AllImprove prefs scheme measure entry := by
  by_cases hacc : atva1Accept prefs scheme measure cand modified = true
  · rw [if_pos hacc] at hmem
    rw [List.mem_singleton.mp hmem]
    exact allImprove_of_accept prefs scheme measure cand modified hoff hacc
  · rw [if_neg hacc] at hmem
    simp at hmem

lemma atva1Loop_allImprove {H : Type} [LinearOrderedAddCommGroup H]
    (prefs : PrefMatrix) (scheme : PrefMatrix → List (Nat × Int))
    (measure : Pref → List Nat → H) (optionsList : List (List Pref))
    (cand : List Nat) (k : Nat) (exhaustive : Bool) (hk : k ≤ cand.length) :
    ∀ (fuel : Nat) (indices : List Nat) (modified : PrefMatrix),
      OffCoalition prefs modified cand →
      ∀ entry ∈ atva1Loop prefs scheme measure optionsList cand k exhaustive
        fuel indices modified, AllImprove prefs scheme measure entry := by
  intro fuel
  induction fuel with
  | zero => intro indices modified _ entry h; simp [atva1Loop] at h
  | succ fuel ih =>
    intro indices modified hoff entry hentry
    rw [atva1Loop] at hentry
    by_cases hbreak : (atva1Accept prefs scheme measure cand modified &&
        !exhaustive) = true
    · rw [if_pos hbreak] at hentry
      exact entryPart_allImprove prefs scheme measure cand modified hoff
        entry hentry
    · rw [if_neg hbreak] at hentry
      by_cases hover : (optionsList.getD (optionsList.length - 1) []).length ≤
          (odoFor optionsList cand k k 0
            (indices.set 0 (indices.getD 0 0 + 1)) modified).1.getD
            ((odoFor optionsList cand k k 0
              (indices.set 0 (indices.getD 0 0 + 1)) modified).1.length - 1) 0
      · rw [if_pos hover] at hentry
        exact entryPart_allImprove prefs scheme measure cand modified hoff
          entry hentry
      · rw [if_neg hover] at hentry
        rcases List.mem_append.mp hentry with hmem | hmem
        · exact entryPart_allImprove prefs scheme measure cand modified hoff
            entry hmem
        · exact ih _ _
            (offCoalition_odoFor optionsList cand k prefs k 0 _ modified
              (by omega) hoff)
            entry hmem

/-- C2: every record that ATVA1.analyze appends to collusion_options comes
with a modified matrix — equal to the input outside the coalition and
carrying the recorded member columns — under whose recomputed outcome every
coalition member's happiness strictly exceeds their individual baseline. -/
theorem coalition_accepts_only_all_improving {H : Type}
    [inst : LinearOrderedAddCommGroup H] (prefs : PrefMatrix)
    (scheme : PrefMatrix → List (Nat × Int)) (measure : Pref → List Nat → H)
    (k : Nat) (exhaustive : Bool) (entry : CollusionEntry H)
    (hmem : entry ∈ atva1CollusionOptions prefs scheme measure k exhaustive) :
    ∃ M : PrefMatrix,
      (∀ j, j ∉ entry.1 → M.getD j [] = prefs.getD j []) ∧
      entry.2.1 = entry.1.map (fun i => M.getD i []) ∧
      ∀ i ∈ entry.1, baselineHappiness prefs scheme measure i <
        measure (prefs.getD i []) (sortedOutcomeKeys (scheme M)) := by
  rw [atva1CollusionOptions] at hmem
  simp only [List.mem_flatMap] at hmem
  rcases hmem with ⟨cand, hcand, hentry⟩
  have hlen : cand.length = k :=
    ((List.mem_sublistsLen.mp hcand).2)
  have hall := atva1Loop_allImprove prefs scheme measure
    (strategicOptionLists prefs) cand k exhaustive (le_of_eq hlen.symm) _
    (List.replicate k 0) _
    (offCoalition_init prefs (strategicOptionLists prefs) cand prefs
      (fun j _ => rfl))
    entry hentry
  rcases hall with ⟨M, hoff, hcols, himp⟩
  exact ⟨M, hoff, hcols, himp⟩

/-- Witness for coalition_accepts_only_all_improving: under borda count and
the default get_happiness measure on the matrix with columns [2,0,1],
[0,1,2], [2,0,1], the coalition of voters 0 and 2 is accepted with both
members submitting [2,1,0], and both strictly improve. -/
theorem coalition_accepts_witness :
    ∃ M : PrefMatrix,
      (∀ j, j ∉ [0, 2] → M.getD j [] =
        ([[2, 0, 1], [0, 1, 2], [2, 0, 1]] : PrefMatrix).getD j []) ∧
      ([[2, 1, 0], [2, 1, 0]] : List Pref) =
        [0, 2].map (fun i => M.getD i []) ∧
      ∀ i ∈ [0, 2],
        baselineHappiness [[2, 0, 1], [0, 1, 2], [2, 0, 1]]
            borda_count_voting get_happiness_default i <
          get_happiness_default
            (([[2, 0, 1], [0, 1, 2], [2, 0, 1]] : PrefMatrix).getD i [])
            (sortedOutcomeKeys (borda_count_voting M)) :=
  coalition_accepts_only_all_improving [[2, 0, 1], [0, 1, 2], [2, 0, 1]]
    borda_count_voting get_happiness_default 2 false
    ([0, 2], [[2, 1, 0], [2, 1, 0]], [1, 1]) (by decide)

/-! ## createNDistinctPermutations (strategy_generators.py lines 17-64) -/

/-- The shuffle-collect loop of strategy_generators.py lines 50-58.
`shuffles t` is the content of the shuffled `middle` list after the t-th
call of `random.shuffle` (the shuffle oracle; each call permutes the
current list in place, so the reachable outputs at every step are exactly
the permutations of the input).  `uniques` is the `uniqueMiddles` set in
insertion order, `fails` the `successiveFailedAttempts` counter, `attempts`
the `countAttempts` counter.  `fuel` bounds the iteration count;
`permLoop_isSome` shows the fuel used below is never exhausted. -/
def permLoop (maxN : Nat) (shuffles : Nat → List Nat) :
    Nat → List (List Nat) → Nat → Nat → Nat → Option (List (List Nat) × Nat)
  | 0, _, _, _, _ => none
  | fuel + 1, uniques, fails, t, attempts =>
    if uniques.length < maxN ∧ fails < 15 then
      if shuffles t ∈ uniques then
        permLoop maxN shuffles fuel uniques (fails + 1) (t + 1) (attempts + 1)
      else
        permLoop maxN shuffles fuel (uniques ++ [shuffles t]) 0 (t + 1)
          (attempts + 1)
    else some (uniques, attempts)

/-- createNDistinctPermutations with `permuteRange = None` (the full-array
branch: `left` and `right` empty, `middle` the whole input), returning the
collected unique rankings together with `countAttempts`. -/
def createNDistinctPermutations (input : List Nat) (maxN : Nat)
    (shuffles : Nat → List Nat) : Option (List (List Nat) × Nat) :=
  if input.length = 0 then some ([], 0)
  else permLoop maxN shuffles (15 * maxN + 16) [] 0 0 0

lemma permLoop_isSome (maxN : Nat) (shuffles : Nat → List Nat) :
    ∀ (fuel : Nat) (uniques : List (List Nat)) (fails t attempts : Nat),
      15 * (maxN - uniques.length) + (15 - fails) < fuel →
      (permLoop maxN shuffles fuel uniques fails t attempts).isSome := by
  intro fuel
  induction fuel with
  | zero => intro uniques fails t attempts h; omega
  | succ fuel ih =>
    intro uniques fails t attempts h
    rw [permLoop]
    by_cases hg : uniques.length < maxN ∧ fails < 15
    · rw [if_pos hg]
      by_cases hmem : shuffles t ∈ uniques
      · rw [if_pos hmem]
        exact ih _ _ _ _ (by omega)
      · rw [if_neg hmem]
        refine ih _ _ _ _ ?_
        rw [List.length_append]
        simp only [List.length_singleton]
        omega
    · rw [if_neg hg]
      rfl

lemma permLoop_spec (maxN : Nat) (shuffles : Nat → List Nat) :
    ∀ (fuel : Nat) (uniques : List (List Nat)) (fails t attempts : Nat)
      (result : List (List Nat) × Nat),
      permLoop maxN shuffles fuel uniques fails t attempts = some result →
      (uniques.length ≤ maxN → result.1.length ≤ maxN) ∧
      (uniques.Nodup → result.1.Nodup) ∧
      result.2 ≤ attempts + 15 * (maxN - uniques.length) + (15 - fails) ∧
      (∀ x ∈ result.1, x ∈ uniques ∨ ∃ s, x = shuffles s) := by
  intro fuel
  induction fuel with
  | zero => intro uniques fails t attempts result h; simp [permLoop] at h
  | succ fuel ih =>
    intro uniques fails t attempts result h
    rw [permLoop] at h
    by_cases hg : uniques.length < maxN ∧ fails < 15
    · rw [if_pos hg] at h
      by_cases hmem : shuffles t ∈ uniques
      · rw [if_pos hmem] at h
        have hrec := ih _ _ _ _ _ h
        refine ⟨hrec.1, hrec.2.1, by omega, hrec.2.2.2⟩
      · rw [if_neg hmem] at h
        have hrec := ih _ _ _ _ _ h
        have hlen : (uniques ++ [shuffles t]).length = uniques.length + 1 := by
          rw [List.length_append]; rfl
        refine ⟨?_, ?_, ?_, ?_⟩
        · intro _
          exact hrec.1 (by omega)
        · intro hnd
          refine hrec.2.1 ?_
          rw [List.nodup_append]
          exact ⟨hnd, List.nodup_singleton _,
            fun a ha heq => hmem ((List.mem_singleton.mp heq) ▸ ha)⟩
        · have := hrec.2.2.1
          rw [hlen] at this
          omega
        · intro x hx
          rcases hrec.2.2.2 x hx with hin | hs
          · rcases List.mem_append.mp hin with hin2 | hin2
            · exact Or.inl hin2
            · exact Or.inr ⟨t, (List.mem_singleton.mp hin2)⟩
          · exact Or.inr hs
    · rw [if_neg hg] at h
      cases h
      exact ⟨fun hl => hl, fun hn => hn, by omega, fun x hx => Or.inl hx⟩

/-- C5 amended: for a ranking of m ≥ 2 distinct entries and maxN = N ≥ 1
(full permuteRange), the generator terminates, returns at most N rankings,
all pairwise distinct and all permutations of the input (hence at most m!
of them — the original ranking may be among them), and the loop runs at
most 15(N+1) shuffle attempts. -/
theorem generator_bounds (input : List Nat) (maxN : Nat)
    (shuffles : Nat → List Nat) (hm : 2 ≤ input.length) (hN : 1 ≤ maxN)
    (hsh : ∀ s, (shuffles s).Perm input) :
    ∃ res : List (List Nat) × Nat,
      createNDistinctPermutations input maxN shuffles = some res ∧
      res.1.length ≤ maxN ∧ res.1.Nodup ∧ (∀ x ∈ res.1, x.Perm input) ∧
      res.1.length ≤ Nat.factorial input.length ∧
      res.2 ≤ 15 * (maxN + 1) := by
  have hne : ¬ input.length = 0 := by omega
  rw [createNDistinctPermutations, if_neg hne]
  have hsome := permLoop_isSome maxN shuffles (15 * maxN + 16) [] 0 0 0
    (by simp only [List.length_nil]; omega)
  rcases Option.isSome_iff_exists.mp hsome with ⟨res, hres⟩
  refine ⟨res, hres, ?_⟩
  have hspec := permLoop_spec maxN shuffles _ _ _ _ _ _ hres
  have hlen : res.1.length ≤ maxN := hspec.1 (by simp)
  have hnd : res.1.Nodup := hspec.2.1 List.nodup_nil
  have hperm : ∀ x ∈ res.1, x.Perm input := by
    intro x hx
    rcases hspec.2.2.2 x hx with hin | ⟨s, rfl⟩
    · simp at hin
    · exact hsh s
  refine ⟨hlen, hnd, hperm, ?_, ?_⟩
  · have hsub : res.1 ⊆ input.permutations' := by
      intro x hx
      exact List.mem_permutations'.mpr (hperm x hx)
    have hsp := List.subperm_of_subset hnd hsub
    have hle := hsp.length_le
    have hlp : input.permutations'.length = Nat.factorial input.length := by
      have h1 := (List.permutations_perm_permutations' input).length_eq
      rw [← h1, List.length_permutations]
    omega
  · have := hspec.2.2.1
    simp at this
    omega

/-- The concrete shuffle-outcome sequence of the C5 counterexample: each
output is a permutation of [0, 1, 2]. -/
def cexShuffles (t : Nat) : List Nat :=
  if t < 15 then [0, 1, 2] else if t < 30 then [1, 0, 2] else [2, 1, 0]

/-- C5 counterexample: with input [0,1,2] (m = 3), maxN = 3 and a shuffle
sequence that yields the sincere order first and then stalls for 14
attempts after each success, the generator returns the original ranking
among its outputs and its loop runs 31 > 15 + 3 shuffle attempts.  Both
the "never returns the original" and "terminates within 15 + N attempts"
parts of the claim fail. -/
theorem generator_claim_counterexample :
    (∀ t, (cexShuffles t).Perm [0, 1, 2]) ∧
    createNDistinctPermutations [0, 1, 2] 3 cexShuffles =
      some ([[0, 1, 2], [1, 0, 2], [2, 1, 0]], 31) ∧
    [0, 1, 2] ∈ [[0, 1, 2], [1, 0, 2], [2, 1, 0]] ∧ 15 + 3 < 31 := by
  refine ⟨?_, by decide, by decide, by decide⟩
  intro t
  unfold cexShuffles
  split
  · exact List.Perm.refl _
  · split
    · decide
    · decide

/-- Witness for generator_bounds at a concrete input: input [0, 1] with
maxN = 1 and an oracle constantly producing [1, 0]. -/
theorem generator_bounds_witness :
    ∃ res : List (List Nat) × Nat,
      createNDistinctPermutations [0, 1] 1 (fun _ => [1, 0]) = some res ∧
      res.1.length ≤ 1 ∧ res.1.Nodup ∧ (∀ x ∈ res.1, x.Perm [0, 1]) ∧
      res.1.length ≤ Nat.factorial ([0, 1] : List Nat).length ∧
      res.2 ≤ 15 * (1 + 1) :=
  generator_bounds [0, 1] 1 (fun _ => [1, 0]) (by decide) (by decide)
    (fun s => by show ([1, 0] : List Nat).Perm [0, 1]; decide)

/-! ## NDCG and createRanking (happiness_measure.py lines 14-84)

Python list indexing with a possibly negative index is embedded by `pyGet`
(negative indices address from the end, out-of-range raises — `none`);
`list.index` is embedded by `pyIndex` (`none` models ValueError).  The
discount `1 / log2(i + 2)` of DCG is irrational; it is abstracted as a
positive parameter `w : Nat -> ℚ`, which no claim's truth depends on. -/

def pyGet (l : List ℚ) (i : Int) : Option ℚ :=
  if 0 ≤ i then l.get? i.toNat
  else if (-i).toNat ≤ l.length then l.get? (l.length - (-i).toNat)
  else none

def pyIndex (outcome : List Nat) (key : Nat) : Option Nat :=
  if key ∈ outcome then some (outcome.indexOf key) else none

/-- createRanking (happiness_measure.py lines 14-32). -/
def createRanking (preferences : Pref) (outcome : List Nat)
    (preferenceWeights distanceWeights : List ℚ) : Option (List ℚ) :=
  let nonZero := (preferenceWeights.filter fun v => decide (0 < v)).length
  (List.range preferences.length).mapM fun i => do
    let idx ← pyIndex outcome (preferences.getD i 0)
    let distance : Int := max 0 ((nonZero : Int) - (idx : Int))
    let pwi ← pyGet preferenceWeights i
    let dwd ← pyGet distanceWeights (distance - 1)
    pure ((distance : ℚ) * pwi * dwd)

/-- DCG (happiness_measure.py lines 35-42); `w i` stands for the positive
discount `1 / log2(i + 2)`. -/
def DCG (w : Nat → ℚ) (ranking : List ℚ) : ℚ :=
  ((List.range ranking.length).map fun i => ranking.getD i 0 * w i).sum

/-- NDCG (happiness_measure.py lines 45-84).  Note the short-distanceWeights
branch of lines 62-64: it appends the zero padding to `preferenceWeights`
(the source's copy-paste), leaving `distanceWeights` unpadded. -/
def NDCG (w : Nat → ℚ) (preferences : Pref) (outcome : List Nat)
    (preferenceWeights distanceWeights : Option (List ℚ)) : Option ℚ :=
  let m := preferences.length
  let pw0 :=
    match preferenceWeights with
    | none => List.replicate ((m + 1) / 2) (1 : ℚ) ++ List.replicate (m / 2) 0
    | some pw => if pw.length < m then pw ++ List.replicate (m - pw.length) 0 else pw
  let pwdw :=
    match distanceWeights with
    | none => (pw0, List.replicate m (1 : ℚ))
    | some dw =>
      if dw.length < m then (pw0 ++ List.replicate (m - dw.length) 0, dw)
      else (pw0, dw)
  do
    let rankings ← createRanking preferences outcome pwdw.1 pwdw.2
    let idealRankings ← createRanking outcome outcome pwdw.1 pwdw.2
    let dcg := DCG w rankings
    let idcg := DCG w idealRankings
    if idcg = 0 then pure 0 else pure (dcg / idcg)

/-- C7: with a full-length preferenceWeights and a too-short distanceWeights
([1] against m = 3), NDCG raises IndexError (none) instead of padding the
distance weights: the padding branch extends preferenceWeights instead, and
createRanking then reads distanceWeights[2] out of range.  The claim that
both short vectors are padded and a float is returned fails. -/
theorem ndcg_short_distance_weights_raises (w : Nat → ℚ) :
    NDCG w [0, 1, 2] [0, 1, 2] (some [1, 1, 1]) (some [1]) = none := by
  rfl

/-! ## Risk measures (risk_measure.py) -/

/-- inversion_ranking_distance (risk_measure.py lines 147-177): normalized
inversion count between two rankings.  `none` models the explicit
ValueError on length mismatch and the KeyError when `option_pref` holds a
value absent from `base_pref`; the positions dict keeps the last occurrence
of duplicated values, hence the reversed indexOf. -/
def inversion_ranking_distance (base_pref option_pref : List Nat) : Option ℚ :=
  if base_pref.length ≠ option_pref.length then none
  else if ¬ option_pref.all (fun v => decide (v ∈ base_pref)) then none
  else
    let target := fun v => base_pref.length - 1 - base_pref.reverse.indexOf v
    let current := option_pref.map target
    let n := current.length
    let inversions := ((List.range n).map fun i =>
      ((List.range n).filter fun j =>
        decide (i < j) && decide (current.getD j 0 < current.getD i 0)).length).sum
    let maxInversions := n * (n - 1) / 2
    if 0 < maxInversions then some ((inversions : ℚ) / (maxInversions : ℚ))
    else some 0

/-- Python `max(l, key=lambda x: x[1])` over a list of (preference, score)
pairs: the first pair with the greatest score; `none` models the ValueError
on an empty list. -/
def pyMaxBySnd (l : List (Option Pref × ℚ)) : Option (Option Pref × ℚ) :=
  match l with
  | [] => none
  | x :: xs => some (xs.foldl (fun best y => if best.2 < y.2 then y else best) x)

/-- Python `max` over a list of floats; `none` models the ValueError on an
empty list. -/
def pyMaxQ (l : List ℚ) : Option ℚ :=
  match l with
  | [] => none
  | x :: xs => some (xs.foldl max x)

/-- FlipRewardRisk's inner loop (risk_measure.py lines 55-67): score each
strictly improving option of voter i, on top of the `[(None, 0.0)]` seed.
`scoreFn d δ` abstracts `tanh(δ / log(d^(p-1) + 1))` with p = 1.3, whose
irrational value no claim depends on. -/
def flipRisks4i (scoreFn : ℚ → ℚ → ℚ) (basePref : Pref) (ihi : ℚ)
    (options : List (Pref × ℚ)) : Option (List (Option Pref × ℚ)) :=
  options.foldlM
    (fun acc pref =>
      if pref.2 ≤ ihi then pure acc
      else do
        let nd ← inversion_ranking_distance basePref pref.1
        pure (acc ++ [(some pref.1, scoreFn nd |pref.2 - ihi|)]))
    [((none : Option Pref), (0 : ℚ))]

/-- FlipRewardRisk (risk_measure.py lines 9-74).  The p-range check always
passes (p is the constant 1.3). -/
def FlipRewardRisk (scoreFn : ℚ → ℚ → ℚ) (voter_preference : PrefMatrix)
    (individual_happiness : List ℚ)
    (strategic_options : List (List (Pref × ℚ))) : Option ℚ := do
  let risks ← strategic_options.enum.foldlM
    (fun acc p =>
      if p.2 = [] then pure acc
      else do
        let r4 ← flipRisks4i scoreFn (voter_preference.getD p.1 [])
          (individual_happiness.getD p.1 0) p.2
        let mx ← pyMaxBySnd r4
        pure (acc ++ [mx]))
    [((none : Option Pref), (0 : ℚ))]
  let om ← pyMaxBySnd risks
  pure om.2

/-- JointFlipRewardRisk's inner loop (risk_measure.py lines 108-120): the
same scoring, but seeded with the empty list. -/
def jointRisks4i (scoreFn : ℚ → ℚ → ℚ) (basePref : Pref) (ihi : ℚ)
    (options : List (Pref × ℚ)) : Option (List ℚ) :=
  options.foldlM
    (fun acc pref =>
      if pref.2 ≤ ihi then pure acc
      else do
        let nd ← inversion_ranking_distance basePref pref.1
        pure (acc ++ [scoreFn nd |pref.2 - ihi|]))
    ([] : List ℚ)

/-- All honest/strategic indicator vectors over n voters
(`product([0, 1], repeat=n)`; enumeration order is irrelevant, the fold
below takes a maximum). -/
def boolVectors : Nat → List (List Bool)
  | 0 => [[]]
  | n + 1 => (boolVectors n).flatMap fun v => [false :: v, true :: v]

/-- JointFlipRewardRisk (risk_measure.py lines 77-144). -/
def JointFlipRewardRisk (scoreFn : ℚ → ℚ → ℚ) (voter_preference : PrefMatrix)
    (individual_happiness : List ℚ)
    (strategic_options : List (List (Pref × ℚ))) : Option ℚ := do
  let individual_risks ← strategic_options.enum.foldlM
    (fun acc p =>
      if p.2 = [] then pure (acc ++ [(0 : ℚ)])
      else do
        let r4 ← jointRisks4i scoreFn (voter_preference.getD p.1 [])
          (individual_happiness.getD p.1 0) p.2
        let mx ← pyMaxQ r4
        pure (acc ++ [mx]))
    ([] : List ℚ)
  let overall := (boolVectors individual_risks.length).foldl
    (fun ov sc =>
      if sc.all (fun x => !x) then ov
      else
        let prob := sc.enum.foldl
          (fun pr q =>
            if individual_risks.getD q.1 0 = 0 then pr
            else if q.2 then pr * individual_risks.getD q.1 0
            else pr * (1 - individual_risks.getD q.1 0))
          (1 : ℚ)
        max ov prob)
    (0 : ℚ)
  pure overall

/-- C9: on a voter whose options set is non-empty but contains no strictly
improving option, JointFlipRewardRisk raises (max over the empty risks4i,
which is seeded `[]` instead of FlipRewardRisk's `[(None, 0.0)]`), while
FlipRewardRisk returns the 0.0 sentinel on the same input and NDCG returns
the 0 sentinel when the ideal DCG is zero. -/
theorem joint_flip_empty_max_raises (scoreFn : ℚ → ℚ → ℚ) (w : Nat → ℚ) :
    JointFlipRewardRisk scoreFn [[0, 1]] [1] [[([1, 0], 0)]] = none ∧
    FlipRewardRisk scoreFn [[0, 1]] [1] [[([1, 0], 0)]] = some 0 ∧
    NDCG w [0, 1] [0, 1] (some [0, 0]) none = some 0 := by
  refine ⟨rfl, rfl, ?_⟩
  show (createRanking [0, 1] [0, 1] [0, 0] [1, 1]).bind
      (fun rankings => (createRanking [0, 1] [0, 1] [0, 0] [1, 1]).bind
        fun idealRankings =>
          if DCG w idealRankings = 0 then pure 0
          else pure (DCG w rankings / DCG w idealRankings)) = some 0
  norm_num [createRanking, pyIndex, pyGet, DCG, List.range_succ,
    List.range_zero, List.mapM.loop]

/-! ## ATVA3.analyze reconstruction retry loop (ATVA3.py lines 61-89) -/

/-- The matrix validity check of ATVA3._is_valid_preference_matrix
(ATVA3.py lines 346-357), column part: every column must hold
`matrix.shape[0]` distinct values.  The dtype and ndim guards always pass
for the arrays this loop builds.  `m` is the row count. -/
def isValidPreferenceMatrix (m : Nat) (mat : PrefMatrix) : Bool :=
  mat.all fun col => col.dedup.length = m

/-- `np.empty((m, n), dtype="U1")`: a fresh m x n array whose cells all
read as the empty string, encoded as candidate 0. -/
def emptyCharMatrix (m n : Nat) : PrefMatrix :=
  List.replicate n (List.replicate m 0)

/-- The exit value of the loop: either the sentinel tuple of lines 80-89 or
a reconstruction accepted as valid. -/
inductive Atva3Exit where
  | failure : Atva3Exit
  | reconstructed : PrefMatrix → Atva3Exit
  deriving DecidableEq

/-- The retry loop of ATVA3.analyze lines 62-89 with the source's
`attempt *= 1` (line 65): re-reconstruct while the current matrix is
invalid, returning the failure sentinel once `attempt > 3`.  `recon calls`
is the (random) result of the calls-th invocation of preference_reconstruct;
`fuel` counts remaining loop iterations, `none` meaning the loop is still
running after that many iterations. -/
def atva3RetryLoop (m : Nat) (recon : Nat → PrefMatrix) :
    Nat → Nat → PrefMatrix → Nat → Option Atva3Exit
  | 0, _, _, _ => none
  | fuel + 1, attempt, current, calls =>
    if isValidPreferenceMatrix m current then some (.reconstructed current)
    else
      let attempt1 := attempt * 1
      let current1 := recon calls
      if 3 < attempt1 then some .failure
      else atva3RetryLoop m recon fuel attempt1 current1 (calls + 1)

/-- C8: when reconstruction keeps producing invalid matrices (here: every
call returns the all-empty 2 x 1 matrix, which fails the per-column
distinctness check), the retry loop never terminates: `attempt *= 1` keeps
`attempt` at 0 forever, so the `attempt > 3` failure return of lines 76-89
is unreachable and the loop runs for every fuel bound. -/
theorem atva3_retry_loop_never_fails :
    ∀ fuel : Nat,
      atva3RetryLoop 2 (fun _ => emptyCharMatrix 2 1) fuel 0
        (emptyCharMatrix 2 1) 0 = none := by
  have hstep : ∀ (fuel calls : Nat),
      atva3RetryLoop 2 (fun _ => emptyCharMatrix 2 1) fuel 0
        (emptyCharMatrix 2 1) calls = none := by
    intro fuel
    induction fuel with
    | zero => intro calls; rfl
    | succ fuel ih =>
      intro calls
      rw [atva3RetryLoop]
      rw [if_neg (by decide), if_neg (by decide)]
      exact ih (calls + 1)
  intro fuel
  exact hstep fuel 0

/-! ## Frame discipline of the analyze loops (C10)

numpy arrays are reference values: `voter_preference.copy()` allocates a
fresh array and `arr[:, i] = col` writes through the reference.  To state
that the caller's matrix is never written, the loops are re-run on an
explicit store of arrays: a reference is an index into the store, `copy`
is `alloc`, and column assignment is `writeCol`. -/

structure Store where
  mats : List PrefMatrix

def Store.read (s : Store) (r : Nat) : PrefMatrix := s.mats.getD r []

def Store.alloc (s : Store) (mat : PrefMatrix) : Store × Nat :=
  (⟨s.mats ++ [mat]⟩, s.mats.length)

def Store.writeCol (s : Store) (r i : Nat) (col : Pref) : Store :=
  ⟨s.mats.set r ((s.mats.getD r []).set i col)⟩

def Store.size (s : Store) : Nat := s.mats.length

/-- `StoreExt n0 s t`: `t` evolved from `s` by allocations and by writes to
references at or above `n0` only — every reference below `n0` reads the
same array in both. -/
def StoreExt (n0 : Nat) (s t : Store) : Prop :=
  n0 ≤ t.size ∧ ∀ r < n0, t.read r = s.read r

lemma StoreExt.rfl {n0 : Nat} {s : Store} (h : n0 ≤ s.size) :
    StoreExt n0 s s :=
  ⟨h, fun _ _ => Eq.refl _⟩

lemma StoreExt.trans {n0 : Nat} {s t u : Store} (h1 : StoreExt n0 s t)
    (h2 : StoreExt n0 t u) : StoreExt n0 s u :=
  ⟨h2.1, fun r hr => (h2.2 r hr).trans (h1.2 r hr)⟩

lemma storeExt_alloc {n0 : Nat} (s : Store) (mat : PrefMatrix)
    (h : n0 ≤ s.size) : StoreExt n0 s (s.alloc mat).1 := by
  refine ⟨by simp [Store.alloc, Store.size] at h ⊢; omega, ?_⟩
  intro r hr
  show (s.mats ++ [mat]).getD r [] = s.mats.getD r []
  exact List.getD_append _ _ _ _ (by simp [Store.size] at h; omega)

lemma storeExt_writeCol {n0 : Nat} (s : Store) (r0 i : Nat) (col : Pref)
    (hr0 : n0 ≤ r0) (h : n0 ≤ s.size) :
    StoreExt n0 s (s.writeCol r0 i col) := by
  refine ⟨?_, ?_⟩
  · show n0 ≤ (s.mats.set r0 _).length
    simpa [Store.size] using h
  · intro r hr
    show (s.mats.set r0 _).getD r [] = s.mats.getD r []
    exact getD_set_ne _ _ _ _ _ (by omega)

lemma storeExt_foldl {γ β : Type} (n0 : Nat) (f : γ × Store → β → γ × Store)
    (hf : ∀ (st : γ × Store) (b : β), n0 ≤ st.2.size →
      StoreExt n0 st.2 (f st b).2) :
    ∀ (l : List β) (st : γ × Store), n0 ≤ st.2.size →
      StoreExt n0 st.2 (l.foldl f st).2 := by
  intro l
  induction l with
  | nil => intro st h; exact StoreExt.rfl h
  | cons b rest ih =>
    intro st h
    exact StoreExt.trans (hf st b h) (ih (f st b) (hf st b h).1)

lemma storeExt_foldl_store {β : Type} (n0 : Nat) (f : Store → β → Store)
    (hf : ∀ (s : Store) (b : β), n0 ≤ s.size → StoreExt n0 s (f s b)) :
    ∀ (l : List β) (s : Store), n0 ≤ s.size → StoreExt n0 s (l.foldl f s) := by
  intro l
  induction l with
  | nil => intro s h; exact StoreExt.rfl h
  | cons b rest ih =>
    intro s h
    exact StoreExt.trans (hf s b h) (ih (f s b) (hf s b h).1)

/-- The sincere baselines, as computed once at the head of each analyze. -/
def baselinesOf (H : Type) (prefs : PrefMatrix)
    (scheme : PrefMatrix → List (Nat × Int))
    (measure : Pref → List Nat → H) : List H :=
  (List.range prefs.length).map fun i =>
    measure (prefs.getD i []) (sortedOutcomeKeys (scheme prefs))

/-- BTVA.analyze (BTVA.py lines 34-111) in store-passing form: baselines
from the input reference, then per voter one copy (`mod_pref`) whose column
i is overwritten per option. -/
def btvaAnalyzeSt (H : Type) (scheme : PrefMatrix → List (Nat × Int))
    (measure : Pref → List Nat → H) (s : Store) (ref : Nat) :
    (List H × List (List (Pref × H))) × Store :=
  let prefs := s.read ref
  let baselines := baselinesOf H prefs scheme measure
  let allOptions := defaultStrategyGenerator (prefs.getD 0 []) 10000
  let lp := (List.range prefs.length).foldl
    (fun (acc : List (List (Pref × H)) × Store) i =>
      let al := acc.2.alloc (acc.2.read ref)
      let inner := allOptions.foldl
        (fun (st : List (Pref × H) × Store) o =>
          let s2 := st.2.writeCol al.2 i o
          let keys := sortedOutcomeKeys (scheme (s2.read al.2))
          (st.1 ++ [(o, measure ((s2.read ref).getD i []) keys)], s2))
        ([], al.1)
      (acc.1 ++ [inner.1], inner.2))
    ([], s)
  ((baselines, lp.1), lp.2)

/-- The odometer pass of ATVA1 (lines 94-102) in store-passing form: every
column assignment goes through the per-coalition copy `copyRef`. -/
def odoForSt (optionsList : List (List Pref)) (cand : List Nat)
    (k copyRef : Nat) :
    Nat → Nat → List Nat → Store → List Nat × Store
  | 0, _, indices, s => (indices, s)
  | rem + 1, i, indices, s =>
    if (optionsList.getD i []).length ≤ indices.getD i 0 then
      if i + 1 < k then
        odoForSt optionsList cand k copyRef rem (i + 1)
          ((indices.set i 0).set (i + 1) (indices.getD (i + 1) 0 + 1))
          (s.writeCol copyRef (cand.getD i 0)
            ((optionsList.getD (cand.getD i 0) []).getD 0 []))
      else (indices, s)
    else
      odoForSt optionsList cand k copyRef rem (i + 1) indices
        (s.writeCol copyRef (cand.getD i 0)
          ((optionsList.getD (cand.getD i 0) []).getD (indices.getD i 0) []))

/-- The per-coalition while loop of ATVA1 (lines 69-104) in store-passing
form. -/
def atva1LoopSt (H : Type) [LinearOrderedAddCommGroup H] (prefs : PrefMatrix)
    (scheme : PrefMatrix → List (Nat × Int)) (measure : Pref → List Nat → H)
    (optionsList : List (List Pref)) (cand : List Nat) (k : Nat)
    (exhaustive : Bool) (copyRef : Nat) :
    Nat → List Nat → Store → List (CollusionEntry H) × Store
  | 0, _, s => ([], s)
  | fuel + 1, indices, s =>
    let modified := s.read copyRef
    let entryPart : List (CollusionEntry H) :=
      if atva1Accept prefs scheme measure cand modified then
        [atva1Entry prefs scheme measure cand modified]
      else []
    if atva1Accept prefs scheme measure cand modified && !exhaustive then
      (entryPart, s)
    else
      let next := odoForSt optionsList cand k copyRef k 0
        (indices.set 0 (indices.getD 0 0 + 1)) s
      if (optionsList.getD (optionsList.length - 1) []).length ≤
          next.1.getD (next.1.length - 1) 0 then
        (entryPart, next.2)
      else
        let rest := atva1LoopSt H prefs scheme measure optionsList cand k
          exhaustive copyRef fuel next.1 next.2
        (entryPart ++ rest.1, rest.2)

/-- ATVA1.analyze (ATVA1.py lines 25-123) in store-passing form: baselines
from the input reference, then per coalition candidate one copy
(`modified_preference_matrix`) receiving the member columns and the
odometer writes. -/
def atva1AnalyzeSt (H : Type) [LinearOrderedAddCommGroup H]
    (scheme : PrefMatrix → List (Nat × Int)) (measure : Pref → List Nat → H)
    (k : Nat) (exhaustive : Bool) (s : Store) (ref : Nat) :
    (List H × List (CollusionEntry H)) × Store :=
  let prefs := s.read ref
  let baselines := baselinesOf H prefs scheme measure
  let optionsList := strategicOptionLists prefs
  let lp := (combinationStrategyGenerator prefs.length k).foldl
    (fun (acc : List (CollusionEntry H) × Store) cand =>
      let al := acc.2.alloc (acc.2.read ref)
      let s1 := cand.foldl
        (fun s2 i => Store.writeCol s2 al.2 i ((optionsList.getD i []).getD 0 []))
        al.1
      let res := atva1LoopSt H prefs scheme measure optionsList cand k
        exhaustive al.2 (((optionsList.getD 0 []).length + 1) ^ k + 1)
        (List.replicate k 0) s1
      (acc.1 ++ res.1, res.2))
    ([], s)
  ((baselines, lp.1), lp.2)

/-- ATVA2._single_step_analyse (ATVA2.py lines 113-243) in store-passing
form: per non-skipped voter one copy (`mod_pref`, resp. `counter_mod_pref`)
whose column is overwritten per option, with the counter classification of
lines 194-211. -/
def singleStepAnalyseSt (H : Type) [LinearOrder H]
    (scheme : PrefMatrix → List (Nat × Int)) (measure : Pref → List Nat → H)
    (allOptions : List Pref) (excl : Option (Nat × Pref × H)) (s : Store)
    (ref : Nat) : (List (List (Pref × H)) × Bool) × Store :=
  let prefs := s.read ref
  let lp := (List.range prefs.length).foldl
    (fun (acc : (List (List (Pref × H)) × Bool) × Store) i =>
      if pythonSkipExcluded (excl.map (·.1)) i then
        ((acc.1.1 ++ [[]], acc.1.2), acc.2)
      else
        let al := acc.2.alloc (acc.2.read ref)
        let inner := allOptions.foldl
          (fun (st : (List (Pref × H) × Bool) × Store) o =>
            let s2 := st.2.writeCol al.2 i o
            let keys := sortedOutcomeKeys (scheme (s2.read al.2))
            let rawH := measure ((s2.read ref).getD i []) keys
            let baseJ := measure (prefs.getD i [])
              (sortedOutcomeKeys (scheme prefs))
            match excl with
            | none => ((st.1.1 ++ [(o, rawH)], st.1.2), s2)
            | some e =>
              let r := counterAdjust measure e.2.1 e.2.2 keys rawH baseJ
              ((st.1.1 ++ [(o, r.1)], st.1.2 || r.2), s2))
          (([], acc.1.2), al.1)
        ((acc.1.1 ++ [inner.1.1], inner.1.2), inner.2))
    (([], false), s)
  (lp.1, lp.2)

/-- ATVA2.analyze (ATVA2.py lines 48-111) in store-passing form: one
un-excluded single step, then per beneficial first move a fresh copy
(`voter_preference_adj`) passed to the nested single step. -/
def atva2AnalyzeSt (H : Type) [LinearOrder H]
    (scheme : PrefMatrix → List (Nat × Int)) (measure : Pref → List Nat → H)
    (s : Store) (ref : Nat) :
    (List H × List (List (Pref × H))) × Store :=
  let prefs := s.read ref
  let baselines := baselinesOf H prefs scheme measure
  let allOptions := defaultStrategyGenerator (prefs.getD 0 []) 10000
  let first := singleStepAnalyseSt H scheme measure allOptions none s ref
  let final := (List.range prefs.length).foldl
    (fun (acc : Store) i =>
      (first.1.1.getD i []).foldl
        (fun (acc2 : Store) oh =>
          if measure (prefs.getD i []) (sortedOutcomeKeys (scheme prefs)) <
              oh.2 then
            let al := acc2.alloc (acc2.read ref)
            let s2 := al.1.writeCol al.2 i oh.1
            (singleStepAnalyseSt H scheme measure allOptions
              (some (i, prefs.getD i [],
                measure (prefs.getD i []) (sortedOutcomeKeys (scheme prefs))))
              s2 al.2).2
          else acc2)
        acc)
    first.2
  ((baselines, first.1.1), final)

lemma storeExt_odoForSt (optionsList : List (List Pref)) (cand : List Nat)
    (k copyRef n0 : Nat) (hcr : n0 ≤ copyRef) :
    ∀ (rem i : Nat) (indices : List Nat) (s : Store), n0 ≤ s.size →
      StoreExt n0 s (odoForSt optionsList cand k copyRef rem i indices s).2 := by
  intro rem
  induction rem with
  | zero => intro i indices s h; exact StoreExt.rfl h
  | succ rem ih =>
    intro i indices s h
    rw [odoForSt]
    by_cases h1 : (optionsList.getD i []).length ≤ indices.getD i 0
    · rw [if_pos h1]
      by_cases h2 : i + 1 < k
      · rw [if_pos h2]
        exact StoreExt.trans (storeExt_writeCol s copyRef _ _ hcr h)
          (ih _ _ _ (storeExt_writeCol s copyRef _ _ hcr h).1)
      · rw [if_neg h2]
        exact StoreExt.rfl h
    · rw [if_neg h1]
      exact StoreExt.trans (storeExt_writeCol s copyRef _ _ hcr h)
        (ih _ _ _ (storeExt_writeCol s copyRef _ _ hcr h).1)

lemma storeExt_atva1LoopSt (H : Type) [LinearOrderedAddCommGroup H]
    (prefs : PrefMatrix) (scheme : PrefMatrix → List (Nat × Int))
    (measure : Pref → List Nat → H) (optionsList : List (List Pref))
    (cand : List Nat) (k : Nat) (exhaustive : Bool) (copyRef n0 : Nat)
    (hcr : n0 ≤ copyRef) :
    ∀ (fuel : Nat) (indices : List Nat) (s : Store), n0 ≤ s.size →
      StoreExt n0 s (atva1LoopSt H prefs scheme measure optionsList cand k
        exhaustive copyRef fuel indices s).2 := by
  intro fuel
  induction fuel with
  | zero => intro indices s h; exact StoreExt.rfl h
  | succ fuel ih =>
    intro indices s h
    rw [atva1LoopSt]
    by_cases hb : (atva1Accept prefs scheme measure cand (s.read copyRef) &&
        !exhaustive) = true
    · rw [if_pos hb]
      exact StoreExt.rfl h
    · rw [if_neg hb]
      have hodo := storeExt_odoForSt optionsList cand k copyRef n0 hcr k 0
        (indices.set 0 (indices.getD 0 0 + 1)) s h
      by_cases hover : (optionsList.getD (optionsList.length - 1) []).length ≤
          (odoForSt optionsList cand k copyRef k 0
            (indices.set 0 (indices.getD 0 0 + 1)) s).1.getD
            ((odoForSt optionsList cand k copyRef k 0
              (indices.set 0 (indices.getD 0 0 + 1)) s).1.length - 1) 0
      · rw [if_pos hover]
        exact hodo
      · rw [if_neg hover]
        exact StoreExt.trans hodo (ih _ _ hodo.1)

lemma storeExt_singleStepSt (H : Type) [LinearOrder H]
    (scheme : PrefMatrix → List (Nat × Int)) (measure : Pref → List Nat → H)
    (allOptions : List Pref) (excl : Option (Nat × Pref × H)) (s : Store)
    (ref n0 : Nat) (h : n0 ≤ s.size) :
    StoreExt n0 s (singleStepAnalyseSt H scheme measure allOptions excl s ref).2 := by
  refine storeExt_foldl n0 _ ?_ _ _ h
  intro st i hst
  by_cases hskip : pythonSkipExcluded (excl.map (·.1)) i = true
  · simp only [hskip, if_pos]
    exact StoreExt.rfl hst
  · simp only [hskip]
    rw [if_neg (by simp [hskip])]
    have halloc := storeExt_alloc st.2 (st.2.read ref) hst
    have hcr : n0 ≤ (st.2.alloc (st.2.read ref)).2 := by
      simpa [Store.alloc, Store.size] using hst
    refine StoreExt.trans halloc ?_
    refine storeExt_foldl n0 _ ?_ allOptions _ halloc.1
    intro st2 o hst2
    rcases excl with _ | e
    · exact storeExt_writeCol st2.2 _ i o hcr hst2
    · exact storeExt_writeCol st2.2 _ i o hcr hst2

/-- C10: run on the explicit store, each analyze (BTVA, ATVA1, ATVA2)
leaves the caller's array unchanged — every column substitution happens on
a copy — and the baselines it computed at entry are exactly the ones
derived from the matrix still found at the input reference on exit. -/
theorem analyze_leaves_input_unchanged (H : Type)
    [inst : LinearOrderedAddCommGroup H]
    (scheme : PrefMatrix → List (Nat × Int)) (measure : Pref → List Nat → H)
    (k : Nat) (exhaustive : Bool) (s : Store) (ref : Nat)
    (h : ref < s.size) :
    ((btvaAnalyzeSt H scheme measure s ref).2.read ref = s.read ref ∧
      (btvaAnalyzeSt H scheme measure s ref).1.1 =
        baselinesOf H ((btvaAnalyzeSt H scheme measure s ref).2.read ref)
          scheme measure) ∧
    ((atva1AnalyzeSt H scheme measure k exhaustive s ref).2.read ref =
        s.read ref ∧
      (atva1AnalyzeSt H scheme measure k exhaustive s ref).1.1 =
        baselinesOf H
          ((atva1AnalyzeSt H scheme measure k exhaustive s ref).2.read ref)
          scheme measure) ∧
    ((atva2AnalyzeSt H scheme measure s ref).2.read ref = s.read ref ∧
      (atva2AnalyzeSt H scheme measure s ref).1.1 =
        baselinesOf H ((atva2AnalyzeSt H scheme measure s ref).2.read ref)
          scheme measure) := by
  have href : ref + 1 ≤ s.size := h
  have hbtva : StoreExt (ref + 1) s (btvaAnalyzeSt H scheme measure s ref).2 := by
    refine storeExt_foldl (ref + 1) _ ?_ _ _ href
    intro st i hst
    have halloc := storeExt_alloc st.2 (st.2.read ref) hst
    have hcr : ref + 1 ≤ (st.2.alloc (st.2.read ref)).2 := by
      simpa [Store.alloc, Store.size] using hst
    refine StoreExt.trans halloc ?_
    refine storeExt_foldl (ref + 1) _ ?_ _ _ halloc.1
    intro st2 o hst2
    exact storeExt_writeCol st2.2 _ i o hcr hst2
  have hatva1 : StoreExt (ref + 1) s
      (atva1AnalyzeSt H scheme measure k exhaustive s ref).2 := by
    refine storeExt_foldl (ref + 1) _ ?_ _ _ href
    intro st cand hst
    have halloc := storeExt_alloc st.2 (st.2.read ref) hst
    have hcr : ref + 1 ≤ (st.2.alloc (st.2.read ref)).2 := by
      simpa [Store.alloc, Store.size] using hst
    refine StoreExt.trans halloc ?_
    have hinit : StoreExt (ref + 1) (st.2.alloc (st.2.read ref)).1
        (cand.foldl (fun s2 i => Store.writeCol s2 (st.2.alloc (st.2.read ref)).2 i
          ((strategicOptionLists (s.read ref) |>.getD i []).getD 0 []))
          (st.2.alloc (st.2.read ref)).1) := by
      refine storeExt_foldl_store (ref + 1) _ ?_ _ _ halloc.1
      intro s2 i hs2
      exact storeExt_writeCol s2 _ i _ hcr hs2
    refine StoreExt.trans hinit ?_
    exact storeExt_atva1LoopSt H (s.read ref) scheme measure
      (strategicOptionLists (s.read ref)) cand k exhaustive _ (ref + 1) hcr _
      (List.replicate k 0) _ hinit.1
  have hatva2 : StoreExt (ref + 1) s
      (atva2AnalyzeSt H scheme measure s ref).2 := by
    have hfirst := storeExt_singleStepSt H scheme measure
      (defaultStrategyGenerator ((s.read ref).getD 0 []) 10000) none s ref
      (ref + 1) href
    refine StoreExt.trans hfirst ?_
    refine storeExt_foldl_store (ref + 1) _ ?_ _ _ hfirst.1
    intro acc i hacc
    refine storeExt_foldl_store (ref + 1) _ ?_ _ _ hacc
    intro acc2 oh hacc2
    by_cases hben : measure ((s.read ref).getD i [])
        (sortedOutcomeKeys (scheme (s.read ref))) < oh.2
    · rw [if_pos hben]
      have halloc := storeExt_alloc acc2 (acc2.read ref) hacc2
      have hcr : ref + 1 ≤ (acc2.alloc (acc2.read ref)).2 := by
        simpa [Store.alloc, Store.size] using hacc2
      have hwr := storeExt_writeCol (acc2.alloc (acc2.read ref)).1 _ i oh.1
        hcr halloc.1
      refine StoreExt.trans halloc (StoreExt.trans hwr ?_)
      exact storeExt_singleStepSt H scheme measure _ _ _ _ (ref + 1) hwr.1
    · rw [if_neg hben]
      exact StoreExt.rfl hacc2
  have hb := hbtva.2 ref (by omega)
  have h1 := hatva1.2 ref (by omega)
  have h2 := hatva2.2 ref (by omega)
  refine ⟨⟨hb, ?_⟩, ⟨h1, ?_⟩, ⟨h2, ?_⟩⟩
  · rw [hb]
    rfl
  · rw [h1]
    rfl
  · rw [h2]
    rfl

/-- Witness for analyze_leaves_input_unchanged: the one-array store holding
the two-voter matrix [[0,1],[1,0]], analyzed through reference 0. -/
theorem analyze_leaves_input_unchanged_witness :
    (btvaAnalyzeSt Int plurality_voting get_happiness_default
        ⟨[[[0, 1], [1, 0]]]⟩ 0).2.read 0 =
      Store.read ⟨[[[0, 1], [1, 0]]]⟩ 0 ∧
    (atva1AnalyzeSt Int plurality_voting get_happiness_default 2 false
        ⟨[[[0, 1], [1, 0]]]⟩ 0).2.read 0 =
      Store.read ⟨[[[0, 1], [1, 0]]]⟩ 0 ∧
    (atva2AnalyzeSt Int plurality_voting get_happiness_default
        ⟨[[[0, 1], [1, 0]]]⟩ 0).2.read 0 =
      Store.read ⟨[[[0, 1], [1, 0]]]⟩ 0 := by
  have hall := analyze_leaves_input_unchanged Int plurality_voting
    get_happiness_default 2 false ⟨[[[0, 1], [1, 0]]]⟩ 0 (by decide)
  exact ⟨hall.1.1, hall.2.1.1, hall.2.2.1⟩

end AMS
